import Mathlib

/-!
Verification of the pythia recovery engine (`src/pythia/core/windows.py`).

The imperative Python code of `PEHandler` is shallowly embedded below:
pure scanning helpers (`_find_tobject`, `_find_vftables`) become Lean
functions over a `SectionMap` value, and the staged `analyse` pipeline
becomes a function from an input description to a final context together
with an event trace and an outcome.  Collaborator classes that are not in
the analysed sources (`PESection`, `WorkQueue`, the object constructors,
`UnitInitHelper`, `VersionHelper`) are modelled from the specification and
are marked as such in their doc comments.  Loops that the Python code runs
without bound (the two work-queue drains) take an explicit fuel argument;
exhausting the fuel is reported as a distinguished outcome so that every
theorem about a completed run corresponds to a terminating Python run.
-/

set_option linter.unusedVariables false

namespace Pythia

/-- Modelled from the spec: one container section with its loaded
virtual-address range and a random-access byte view (spec sections 3 and
4.1); the `PESection` helper class is not among the analysed sources.
Bytes are a total function from offset, reduced modulo 256. -/
structure SectionMap where
  load_address : ℕ
  size : ℕ
  data : ℕ → ℕ

def SectionMap.byte (s : SectionMap) (o : ℕ) : ℕ := s.data o % 256

/-- Modelled from the spec: a positioned read of one fixed-width
little-endian 32-bit integer at byte offset `o` (spec section 4.1; the
`unpack_stream "I"` helper is not among the analysed sources). -/
def SectionMap.read_u32 (s : SectionMap) (o : ℕ) : ℕ :=
  s.byte o + 256 * s.byte (o + 1) + 65536 * s.byte (o + 2) + 16777216 * s.byte (o + 3)

/-- Modelled from the spec: membership of a virtual address in the
half-open interval `[load_address, load_address + size)` (spec section 3). -/
def SectionMap.contains_va (s : SectionMap) (va : ℕ) : Bool :=
  decide (s.load_address ≤ va ∧ va < s.load_address + s.size)

/-- Modelled from the spec: offset translation `offset = va - load_address`
(spec section 3), meaningful when `contains_va` holds. -/
def SectionMap.offset_from_va (s : SectionMap) (va : ℕ) : ℕ := va - s.load_address

def SectionMap.va_from_offset (s : SectionMap) (o : ℕ) : ℕ := s.load_address + o

/-- The 4-byte-aligned offsets `0, 4, 8, ...` strictly below `bound`
(the bound is an integer because the Python loop conditions subtract
untruncated machine words from the section size). -/
def alignedPositions (bound : ℤ) : List ℕ :=
  (List.range ((bound.toNat + 3) / 4)).map (fun k => 4 * k)

/-- The little-endian bytes `\x07TObj` that begin TObject's name field
(`windows.py` line 309). -/
def tobj_name_sig : ℕ := 0x624F5407

/-- The `difference` measure of `_find_tobject` (`windows.py` lines 289-290):
the in-section offset of the pointer read at `j`, minus `j`. -/
def tobjDifference (s : SectionMap) (j : ℕ) : ℤ :=
  (s.offset_from_va (s.read_u32 j) : ℤ) - (j : ℤ)

/-- One iteration of the `_find_tobject` scan loop (`windows.py` lines
272-312): the sequence of guarded `continue`s, returning the confirmed
distance on acceptance. -/
def tobjStep (s : SectionMap) (j : ℕ) : Option ℤ :=
  let ptr := s.read_u32 j
  let check1 := s.read_u32 (j + 4)
  let check2 := s.read_u32 (j + 8)
  if check1 ≠ 0 ∨ check2 ≠ 0 then none
  else if s.contains_va ptr then
    (if tobjDifference s j < 36 ∨ 128 < tobjDifference s j then none
     else
       (let name_ptr := s.read_u32 (j + 32)
        if s.contains_va name_ptr then
          (if s.read_u32 (s.offset_from_va name_ptr) = tobj_name_sig then
            some (tobjDifference s j)
          else none)
        else none))
  else none

/-- The byte offsets read (as 32-bit loads) by one iteration of the
`_find_tobject` loop, mirroring the guard structure of `tobjStep`:
the three header fields at `j` are always read, the name pointer at
`j + 32` only when the earlier checks pass, and the name itself only when
the name pointer is in the section. -/
def tobjStepReads (s : SectionMap) (j : ℕ) : List ℕ :=
  let ptr := s.read_u32 j
  let check1 := s.read_u32 (j + 4)
  let check2 := s.read_u32 (j + 8)
  if check1 ≠ 0 ∨ check2 ≠ 0 then [j, j + 4, j + 8]
  else if s.contains_va ptr then
    (if tobjDifference s j < 36 ∨ 128 < tobjDifference s j then [j, j + 4, j + 8]
     else
       (let name_ptr := s.read_u32 (j + 32)
        if s.contains_va name_ptr then
          [j, j + 4, j + 8, j + 32, s.offset_from_va name_ptr]
        else [j, j + 4, j + 8, j + 32]))
  else [j, j + 4, j + 8]

/-- The `_find_tobject` while loop over a list of candidate positions:
first acceptance stops the scan (the `break` at `windows.py` line 312).
Also accumulates the log of 32-bit reads performed. -/
def tobjScan (s : SectionMap) : List ℕ → Option (ℕ × ℤ) × List ℕ
  | [] => (none, [])
  | j :: rest =>
    match tobjStep s j with
    | some d => (some (j, d), tobjStepReads s j)
    | none =>
      let r := tobjScan s rest
      (r.1, tobjStepReads s j ++ r.2)

/-- The candidate positions of `_find_tobject`: 4-byte-aligned offsets `j`
with `j < size - 128` (`windows.py` lines 265-270, where `i` starts at 0
and is incremented by 4). -/
def tobjPositions (s : SectionMap) : List ℕ := alignedPositions ((s.size : ℤ) - 128)

structure TObjectResult where
  va : ℕ
  vftable_length : ℤ
deriving DecidableEq

/-- Translation of `_find_tobject` (`windows.py` lines 254-317): scan the
candidate positions, and on a confirmed distance return the accepting
virtual address and the distance. -/
def find_tobject (s : SectionMap) : Option TObjectResult :=
  match (tobjScan s (tobjPositions s)).1 with
  | some (j, d) => some ⟨s.va_from_offset j, d⟩
  | none => none

/-- The full read log of one `_find_tobject` call. -/
def tobjReads (s : SectionMap) : List ℕ := (tobjScan s (tobjPositions s)).2

/-- Acceptance of a TObject candidate position, stated as claim C1 words
it: both check fields zero, the self pointer in the section, the distance
within `[36, 128]`, the name pointer in the section and the dereferenced
name equal to the signature. -/
def tobjAccept (s : SectionMap) (j : ℕ) : Prop :=
  s.read_u32 (j + 4) = 0 ∧ s.read_u32 (j + 8) = 0 ∧
  s.contains_va (s.read_u32 j) = true ∧
  36 ≤ tobjDifference s j ∧ tobjDifference s j ≤ 128 ∧
  s.contains_va (s.read_u32 (j + 32)) = true ∧
  s.read_u32 (s.offset_from_va (s.read_u32 (j + 32))) = tobj_name_sig

instance tobjAcceptDecidable (s : SectionMap) (j : ℕ) : Decidable (tobjAccept s j) := by
  unfold tobjAccept
  infer_instance

inductive ObjKind
  | vftable
  | other (tag : ℕ)
deriving DecidableEq

/-- Modelled from the spec: a work-queue entry, a virtual address paired
with the declared object kind (spec section 3; the `WorkQueue` class is
not among the analysed sources). -/
structure WorkItem where
  location : ℕ
  kind : ObjKind
deriving DecidableEq

/-- The candidate offsets of `_find_vftables`: 4-byte-aligned offsets `i`
with `i < size - header_length` (`windows.py` lines 323-327 and 359). -/
def vfPositions (s : SectionMap) (H : ℤ) : List ℕ := alignedPositions ((s.size : ℤ) - H)

/-- The five-header-slot check of `_find_vftables` (`windows.py` lines
344-351): an error is flagged when some of the five 32-bit fields
following the self pointer is nonzero and not in the section. -/
def vfHeaderError (s : SectionMap) (i : ℕ) : Bool :=
  (List.range 5).any (fun k =>
    let v := s.read_u32 (i + 4 + 4 * k)
    v ≠ 0 && !(s.contains_va v))

/-- One iteration of the `_find_vftables` loop (`windows.py` lines
328-356): the candidate at offset `i` survives when its self pointer
equals `va + header_length` and no header-slot error is flagged. -/
def vfStep (s : SectionMap) (H : ℤ) (i : ℕ) : Bool :=
  let ptr := s.read_u32 i
  let va := s.load_address + i
  if ((va : ℤ) + H = (ptr : ℤ)) then !(vfHeaderError s i) else false

/-- Translation of `_find_vftables` (`windows.py` lines 320-361): fold over
the candidate offsets, counting survivors and appending each survivor's
virtual address to the work queue (tagged as a virtual table).  No object
is constructed here; the function only produces the count and the queue
entries. -/
def find_vftables (s : SectionMap) (H : ℤ) : ℕ × List WorkItem :=
  (vfPositions s H).foldl
    (fun acc i =>
      if vfStep s H i then (acc.1 + 1, acc.2 ++ [⟨s.load_address + i, ObjKind.vftable⟩])
      else acc)
    (0, [])

/-- Acceptance of a vftable candidate, stated as claim C2 words it: the
32-bit value at `i` equals `load_address + i + H` and each of the five
following slots is zero or an in-section virtual address. -/
def vfAcceptSpec (s : SectionMap) (H : ℤ) (i : ℕ) : Prop :=
  (s.read_u32 i : ℤ) = (s.load_address : ℤ) + (i : ℤ) + H ∧
  ∀ k < 5, s.read_u32 (i + 4 + 4 * k) = 0 ∨ s.contains_va (s.read_u32 (i + 4 + 4 * k)) = true

instance vfAcceptSpecDecidable (s : SectionMap) (H : ℤ) (i : ℕ) :
    Decidable (vfAcceptSpec s H i) := by
  unfold vfAcceptSpec
  infer_instance

/-- The `RecoveryContext` of one run (spec section 3, mirroring the fields
`analyse` assigns in `windows.py`): section partition, derived header
length, object-bearing section, version fact, recovered objects.  The
version fact and a recovered object are kept abstract (a natural number
and the item's address/kind) since their internals live outside the
analysed sources. -/
structure Context where
  code_sections : List SectionMap
  data_sections : List SectionMap
  header_length : Option ℤ
  object_section : Option SectionMap
  version : Option ℕ
  items : List WorkItem

/-- Observable events of one `analyse` run, recorded in order: unit-init
table parsing, the vftable scan (with its returned count), one object
construction (pass number 1 or 2, the load address of the section handed
to the constructor, the dequeued location and kind, and whether
construction succeeded or raised a validation error), and version
inference. -/
inductive Event
  | parseInitTable
  | scanVftables (found : ℕ)
  | construct (passNo : ℕ) (sectionLoad : ℕ) (location : ℕ) (kind : ObjKind) (ok : Bool)
  | versionInfer
deriving DecidableEq

/-- Modelled from the spec: the object-construction contract and the
version inferer (spec sections 4.4 and 4.5; the object classes and
`VersionHelper` are not among the analysed sources).  `construct` receives
the section, the dequeued location and kind, and the current context; it
returns the work items it registered on the shared queue before finishing
and a flag that is `false` when it raised a validation error instead of
producing an object. -/
structure ObjectModel where
  construct : SectionMap → ℕ → ObjKind → Context → List WorkItem × Bool
  inferVersion : Context → ℕ

/-- Modelled from the spec: filtered FIFO dequeue of the `WorkQueue`
(spec section 3): remove and return the first item of the requested kind,
leaving the rest in order. -/
def getItemFiltered : List WorkItem → ObjKind → Option (WorkItem × List WorkItem)
  | [], _ => none
  | it :: rest, k =>
    if it.kind = k then some (it, rest)
    else
      match getItemFiltered rest k with
      | some (x, rest2) => some (x, it :: rest2)
      | none => none

/-- The item a trace event contributes to `context.items`: a successful
construction stores the dequeued location and kind, everything else
stores nothing. -/
def constructSuccess : Event → Option WorkItem
  | .construct _ _ loc k true => some ⟨loc, k⟩
  | _ => none

def isConstructPass (p : ℕ) : Event → Bool
  | .construct q _ _ _ _ => q = p
  | _ => false

/-- The step-3 loop of `analyse` (`windows.py` lines 189-199): repeatedly
dequeue an item filtered to the `Vftable` kind and construct it with the
selected code section; a validation error discards the item, a success
appends the object to `context.items`.  `fuel` bounds the number of loop
bodies executed; the final flag is `true` exactly when the loop ended
because no vftable item remained. -/
def drainA (m : ObjectModel) (cs : SectionMap) :
    ℕ → List WorkItem → Context → List Event → Context × List WorkItem × List Event × Bool
  | 0, q, ctx, tr => (ctx, q, tr, (getItemFiltered q ObjKind.vftable).isNone)
  | fuel + 1, q, ctx, tr =>
    match getItemFiltered q ObjKind.vftable with
    | none => (ctx, q, tr, true)
    | some (it, q2) =>
      let r := m.construct cs it.location it.kind ctx
      if r.2 then
        drainA m cs fuel (q2 ++ r.1)
          { ctx with items := ctx.items ++ [it] }
          (tr ++ [.construct 1 cs.load_address it.location it.kind true])
      else
        drainA m cs fuel (q2 ++ r.1) ctx
          (tr ++ [.construct 1 cs.load_address it.location it.kind false])

/-- The step-5 loop of `analyse` (`windows.py` lines 207-222): repeatedly
dequeue the head item regardless of kind and construct it with the
selected code section; a validation error is logged and the item
discarded, a success appends the object.  `fuel` bounds the number of
loop bodies; the final flag is `true` exactly when the queue emptied. -/
def drainB (m : ObjectModel) (cs : SectionMap) :
    ℕ → List WorkItem → Context → List Event → Context × List WorkItem × List Event × Bool
  | 0, q, ctx, tr => (ctx, q, tr, q.isEmpty)
  | fuel + 1, q, ctx, tr =>
    match q with
    | [] => (ctx, [], tr, true)
    | it :: q2 =>
      let r := m.construct cs it.location it.kind ctx
      if r.2 then
        drainB m cs fuel (q2 ++ r.1)
          { ctx with items := ctx.items ++ [it] }
          (tr ++ [.construct 2 cs.load_address it.location it.kind true])
      else
        drainB m cs fuel (q2 ++ r.1) ctx
          (tr ++ [.construct 2 cs.load_address it.location it.kind false])

/-- The step-1 loop of `analyse` (`windows.py` lines 161-176): run
`find_tobject` over every code section.  The accumulator holds the first
accepting section and its distance; a second acceptance raises (the
`Exception` at line 172), carried here as the error case, with the first
acceptance as payload since lines 175-176 already stored it. -/
def tobjectStage : List SectionMap → Option (SectionMap × ℤ) →
    Except (SectionMap × ℤ) (Option (SectionMap × ℤ))
  | [], acc => .ok acc
  | s :: rest, acc =>
    match find_tobject s with
    | some r =>
      match acc with
      | some first => .error first
      | none => tobjectStage rest (some (s, r.vftable_length))
    | none => tobjectStage rest acc

/-- The externally supplied facts one `analyse` call consumes (spec
section 6): the unit-init table position reported by `UnitInitHelper`
(modelled from the spec, the helper is not among the analysed sources),
the executable's declared entry-point virtual address (reported by the
container; the `analyse` code never consults it), and the code and data
section lists. -/
structure AnalyseInput where
  tablePos : Option ℕ
  entry_point : ℕ
  codeSections : List SectionMap
  dataSections : List SectionMap

inductive Outcome
  | fatalNoCodeSection
  | fatalMultiTObject
  | fatalNoTObject
  | fuelExhaustedA
  | fuelExhaustedB
  | completed
deriving DecidableEq

structure AnalyseResult where
  ctx : Context
  trace : List Event
  queue : List WorkItem
  outcome : Outcome

/-- The context right after `windows.py` lines 134-135: section lists
stored, everything else still unset. -/
def initialContext (inp : AnalyseInput) : Context :=
  { code_sections := inp.codeSections, data_sections := inp.dataSections,
    header_length := none, object_section := none, version := none, items := [] }

/-- The code-section selection loop of `analyse` (`windows.py` lines
137-141): the first code section `s` with `s.contains_va(s.load_address)`. -/
def selectCodeSection (inp : AnalyseInput) : Option SectionMap :=
  inp.codeSections.find? (fun s => s.contains_va s.load_address)

/-- The guarded `parse_init_table` call (`windows.py` lines 149-150),
reached only when the unit-init table was found; `UnitInitHelper.parse_init_table`
is modelled from the spec as a pure parsing event (it receives no work
queue, so it cannot enqueue work). -/
def initTrace (inp : AnalyseInput) : List Event :=
  match inp.tablePos with
  | some _ => [Event.parseInitTable]
  | none => []

/-- The context after `windows.py` lines 175-176 stored the confirmed
vftable length and the accepting object section. -/
def scanContext (inp : AnalyseInput) (osec : SectionMap) (len : ℤ) : Context :=
  { code_sections := inp.codeSections, data_sections := inp.dataSections,
    header_length := some len, object_section := some osec,
    version := none, items := [] }

/-- `analyse` up to and including the step-3 vftable-only drain
(`windows.py` lines 112-199): section selection, TObject discovery, the
vftable scan, and pass A.  Returns either a finished (aborted or
fuel-starved) result, or the state handed to the version-inference step:
the selected code section, the context, the remaining queue and the trace
so far. -/
def analyseToPassA (m : ObjectModel) (fuelA : ℕ) (inp : AnalyseInput) :
    AnalyseResult ⊕ (SectionMap × Context × List WorkItem × List Event) :=
  match selectCodeSection inp with
  | none => .inl ⟨initialContext inp, [], [], .fatalNoCodeSection⟩
  | some cs =>
    match tobjectStage inp.codeSections none with
    | .error first =>
      .inl ⟨{ initialContext inp with
                header_length := some first.2, object_section := some first.1 },
            initTrace inp, [], .fatalMultiTObject⟩
    | .ok none => .inl ⟨initialContext inp, initTrace inp, [], .fatalNoTObject⟩
    | .ok (some (osec, len)) =>
      let scan := find_vftables osec len
      let p := drainA m cs fuelA scan.2 (scanContext inp osec len)
          (initTrace inp ++ [Event.scanVftables scan.1])
      if p.2.2.2 then .inr (cs, p.1, p.2.1, p.2.2.1)
      else .inl ⟨p.1, p.2.2.1, p.2.1, .fuelExhaustedA⟩

/-- Translation of `analyse` (`windows.py` lines 112-229): after pass A,
version inference runs (line 205, `VersionHelper` modelled from the spec
as `inferVersion`), then the general pass B drains the queue to
exhaustion. -/
def analyse (m : ObjectModel) (fuelA fuelB : ℕ) (inp : AnalyseInput) : AnalyseResult :=
  match analyseToPassA m fuelA inp with
  | .inl r => r
  | .inr (cs, ctx2, q2, tr2) =>
    let ctx3 := { ctx2 with version := some (m.inferVersion ctx2) }
    let p := drainB m cs fuelB q2 ctx3 (tr2 ++ [Event.versionInfer])
    ⟨p.1, p.2.2.1, p.2.1, if p.2.2.2 then .completed else .fuelExhaustedB⟩

/-- Sections of `inp` in which the TObject pattern is accepted. -/
def acceptingSections (inp : AnalyseInput) : List SectionMap :=
  inp.codeSections.filter (fun s => (find_tobject s).isSome)

/-- A synthetic 256-byte section body holding one crafted TObject pattern
at offset 0: a self pointer to `load + 40` (distance 40), zero check
fields, a name pointer at offset 32 to `load + 64`, and the name
signature bytes at offset 64.  Valid for `load + 64 < 65536`. -/
def patBytes (load : ℕ) (o : ℕ) : ℕ :=
  if o = 0 then (load + 40) % 256
  else if o = 1 then ((load + 40) / 256) % 256
  else if o = 32 then (load + 64) % 256
  else if o = 33 then ((load + 64) / 256) % 256
  else if o = 64 then 7
  else if o = 65 then 84
  else if o = 66 then 79
  else if o = 67 then 98
  else 0

def exSection (load : ℕ) : SectionMap := ⟨load, 256, patBytes load⟩

/-- A 16-byte all-zero code section (shorter than one vftable header). -/
def exSmall : SectionMap := ⟨4096, 16, fun _ => 0⟩

/-- A constructor model whose every construction succeeds and registers no
follow-up work. -/
def exModel : ObjectModel := ⟨fun _ _ _ _ => ([], true), fun _ => 7⟩

/-- A constructor model whose every construction raises a validation
error. -/
def exModelFail : ObjectModel := ⟨fun _ _ _ _ => ([], false), fun _ => 7⟩

/-- One pattern section at 4096, no unit-init table. -/
def exInput : AnalyseInput := ⟨none, 4096, [exSection 4096], []⟩

/-- A small plain section first, the pattern section second, entry point
inside the second. -/
def exInput2 : AnalyseInput := ⟨none, 8200, [exSmall, exSection 8192], []⟩

/-- Two sections that both hold the TObject pattern. -/
def exInputMulti : AnalyseInput := ⟨none, 4096, [exSection 8192, exSection 16384], []⟩

/-- One small section in which the TObject pattern is nowhere accepted. -/
def exInputNone : AnalyseInput := ⟨none, 0, [exSmall], []⟩

/-- Same sections as `exInput2` but an entry point inside no section. -/
def exInputEPNone : AnalyseInput := ⟨none, 1, [exSmall, exSection 8192], []⟩

example : find_tobject (exSection 4096) = some ⟨4096, 40⟩ := by decide
example : find_vftables (exSection 4096) 40 = (1, [⟨4096, ObjKind.vftable⟩]) := by decide
example : (analyse exModel 8 8 exInput).outcome = Outcome.completed := by decide
example : (analyse exModel 8 8 exInput).trace =
    [Event.scanVftables 1, Event.construct 1 4096 4096 ObjKind.vftable true,
     Event.versionInfer] := by decide
example : (analyse exModel 8 8 exInput2).trace =
    [Event.scanVftables 1, Event.construct 1 4096 8192 ObjKind.vftable true,
     Event.versionInfer] := by decide
example : (analyse exModel 8 8 exInputMulti).outcome = Outcome.fatalMultiTObject := by decide
example : (analyse exModel 8 8 exInputNone).outcome = Outcome.fatalNoTObject := by decide
example : (analyse exModelFail 8 8 exInput).ctx.items = [] := by decide
example : (analyse exModelFail 8 8 exInput).outcome = Outcome.completed := by decide

/-- Claim C1 as one proposition about a section: the candidate positions
are exactly the 4-byte-aligned offsets stopping 128 bytes before the
section end; a returned result comes from the first accepting position
with `vftable_length` equal to its distance; and a `none` result means no
position is accepted. -/
def c1Statement (s : SectionMap) : Prop :=
  (∀ j, j ∈ tobjPositions s ↔ (j % 4 = 0 ∧ (j : ℤ) < (s.size : ℤ) - 128)) ∧
  (∀ r, find_tobject s = some r →
    ∃ j, j ∈ tobjPositions s ∧ tobjAccept s j ∧
      r.va = s.va_from_offset j ∧ r.vftable_length = tobjDifference s j ∧
      ∀ j', j' ∈ tobjPositions s → j' < j → ¬ tobjAccept s j') ∧
  (find_tobject s = none → ∀ j ∈ tobjPositions s, ¬ tobjAccept s j)

/-- Claim C2 as one proposition about a section and a header length: the
visited offsets are exactly the 4-byte-aligned offsets below
`size - H`; the enqueued work items are exactly the accepted offsets'
virtual addresses tagged as virtual tables, in scan order; and the
returned count is the number of items enqueued. -/
def c2Statement (s : SectionMap) (H : ℤ) : Prop :=
  (∀ i, i ∈ vfPositions s H ↔ (i % 4 = 0 ∧ (i : ℤ) < (s.size : ℤ) - H)) ∧
  (find_vftables s H).2 =
    ((vfPositions s H).filter (fun i => decide (vfAcceptSpec s H i))).map
      (fun i => ⟨s.load_address + i, ObjKind.vftable⟩) ∧
  (find_vftables s H).1 = (find_vftables s H).2.length

/-- Claim C6 as one proposition: acceptance of the TObject pattern in two
or more code sections, or in none, makes `analyse` abort fatally (the only
other abort that can pre-empt these is the code-section-selection failure,
itself fatal), and on every fatal outcome no vftable scan and no object
construction has happened and the context is only partially populated
(section lists stored, no version, no items). -/
def c6Statement (m : ObjectModel) (fuelA fuelB : ℕ) (inp : AnalyseInput) : Prop :=
  (2 ≤ (acceptingSections inp).length →
     (analyse m fuelA fuelB inp).outcome = Outcome.fatalMultiTObject ∨
     (analyse m fuelA fuelB inp).outcome = Outcome.fatalNoCodeSection) ∧
  ((acceptingSections inp).length = 0 →
     (analyse m fuelA fuelB inp).outcome = Outcome.fatalNoTObject ∨
     (analyse m fuelA fuelB inp).outcome = Outcome.fatalNoCodeSection) ∧
  (((analyse m fuelA fuelB inp).outcome = Outcome.fatalMultiTObject ∨
    (analyse m fuelA fuelB inp).outcome = Outcome.fatalNoTObject ∨
    (analyse m fuelA fuelB inp).outcome = Outcome.fatalNoCodeSection) →
     (∀ e ∈ (analyse m fuelA fuelB inp).trace,
        (∀ f, e ≠ Event.scanVftables f) ∧
        (∀ p sec loc k ok, e ≠ Event.construct p sec loc k ok)) ∧
     (analyse m fuelA fuelB inp).ctx.items = [] ∧
     (analyse m fuelA fuelB inp).ctx.version = none ∧
     (analyse m fuelA fuelB inp).ctx.code_sections = inp.codeSections ∧
     (analyse m fuelA fuelB inp).ctx.data_sections = inp.dataSections)

/-- Claim C7 as one proposition: `context.items` holds exactly the
successfully constructed objects of the trace (an item whose construction
raised a validation error is never appended), a completed run has drained
the queue to emptiness, and a fuel-starved drain has processed one item
per unit of fuel (an error never stops the loop early, and no error
escapes `analyse`, whose result type has no failure channel). -/
def c7Statement (m : ObjectModel) (fuelA fuelB : ℕ) (inp : AnalyseInput) : Prop :=
  (analyse m fuelA fuelB inp).ctx.items =
      (analyse m fuelA fuelB inp).trace.filterMap constructSuccess ∧
  ((analyse m fuelA fuelB inp).outcome = Outcome.completed →
      (analyse m fuelA fuelB inp).queue = []) ∧
  ((analyse m fuelA fuelB inp).outcome = Outcome.fuelExhaustedA →
      (analyse m fuelA fuelB inp).trace.countP (isConstructPass 1) = fuelA) ∧
  ((analyse m fuelA fuelB inp).outcome = Outcome.fuelExhaustedB →
      (analyse m fuelA fuelB inp).trace.countP (isConstructPass 2) = fuelB)

theorem mem_alignedPositions (b : ℤ) (j : ℕ) :
    j ∈ alignedPositions b ↔ j % 4 = 0 ∧ (j : ℤ) < b := by
  unfold alignedPositions
  simp only [List.mem_map, List.mem_range]
  constructor
  · rintro ⟨k, hk, rfl⟩
    omega
  · rintro ⟨h4, hb⟩
    exact ⟨j / 4, by omega, by omega⟩

theorem alignedPositions_pairwise (b : ℤ) : (alignedPositions b).Pairwise (· < ·) := by
  unfold alignedPositions
  rw [List.pairwise_map]
  exact (List.pairwise_lt_range _).imp (by omega)

theorem tobjStep_eq_some_iff (s : SectionMap) (j : ℕ) (d : ℤ) :
    tobjStep s j = some d ↔ tobjAccept s j ∧ d = tobjDifference s j := by
  constructor
  · intro h
    simp only [tobjStep] at h
    split_ifs at h with h1 h2 h3 h4 h5 <;>
      first
        | (injection h with hd
           push_neg at h1
           exact ⟨⟨h1.1, h1.2, h2, by omega, by omega, h4, h5⟩, hd.symm⟩)
        | exact absurd h (by simp)
  · rintro ⟨⟨hc1, hc2, hptr, hlo, hhi, hnp, hname⟩, rfl⟩
    simp only [tobjStep]
    rw [if_neg (by simp [hc1, hc2]), if_pos hptr, if_neg (by omega), if_pos hnp,
      if_pos hname]

theorem tobjStep_some_of_accept (s : SectionMap) (j : ℕ) (h : tobjAccept s j) :
    tobjStep s j = some (tobjDifference s j) :=
  (tobjStep_eq_some_iff s j _).mpr ⟨h, rfl⟩

theorem tobjStep_eq_none_iff (s : SectionMap) (j : ℕ) :
    tobjStep s j = none ↔ ¬ tobjAccept s j := by
  constructor
  · intro h hacc
    rw [tobjStep_some_of_accept s j hacc] at h
    exact Option.noConfusion h
  · intro h
    cases hs : tobjStep s j with
    | none => rfl
    | some d => exact absurd ((tobjStep_eq_some_iff s j d).mp hs).1 h

theorem tobjScan_fst_none (s : SectionMap) :
    ∀ l, (tobjScan s l).1 = none → ∀ j ∈ l, tobjStep s j = none := by
  intro l
  induction l with
  | nil => intro _ j hj; cases hj
  | cons a rest ih =>
    intro h j hj
    cases hs : tobjStep s a with
    | some d =>
      simp only [tobjScan, hs] at h
      exact absurd h (by simp)
    | none =>
      simp only [tobjScan, hs] at h
      rcases List.mem_cons.mp hj with rfl | hj2
      · exact hs
      · exact ih h j hj2

theorem tobjScan_fst_some (s : SectionMap) :
    ∀ l, l.Pairwise (· < ·) → ∀ j d, (tobjScan s l).1 = some (j, d) →
      j ∈ l ∧ tobjStep s j = some d ∧ ∀ j' ∈ l, j' < j → tobjStep s j' = none := by
  intro l
  induction l with
  | nil => intro _ j d h; simp [tobjScan] at h
  | cons a rest ih =>
    intro hp j d h
    cases hs : tobjStep s a with
    | some d0 =>
      simp only [tobjScan, hs, Option.some.injEq, Prod.mk.injEq] at h
      obtain ⟨rfl, rfl⟩ := h
      refine ⟨List.mem_cons_self _ _, hs, ?_⟩
      intro j' hj' hlt
      rcases List.mem_cons.mp hj' with rfl | hmem
      · omega
      · have := (List.pairwise_cons.mp hp).1 j' hmem
        omega
    | none =>
      simp only [tobjScan, hs] at h
      obtain ⟨hmem, hstep, hbefore⟩ := ih (List.pairwise_cons.mp hp).2 j d h
      refine ⟨List.mem_cons_of_mem _ hmem, hstep, ?_⟩
      intro j' hj' hlt
      rcases List.mem_cons.mp hj' with rfl | hmem2
      · exact hs
      · exact hbefore j' hmem2 hlt

/-- C1: for every code section, `_find_tobject` scans 4-byte-aligned
positions stopping 128 bytes before the section end and returns the first
position at which the check fields are zero, the self pointer is
in-section with distance in `[36, 128]`, and the in-section name pointer
dereferences to the TObject name signature, reporting that distance as
`vftable_length`; it returns no result when no position qualifies, and
stops at the first acceptance. -/
theorem c1_find_tobject (s : SectionMap) : c1Statement s := by
  refine ⟨fun j => mem_alignedPositions _ j, ?_, ?_⟩
  · intro r hr
    unfold find_tobject at hr
    cases hsc : (tobjScan s (tobjPositions s)).1 with
    | none => rw [hsc] at hr; exact Option.noConfusion hr
    | some jd =>
      obtain ⟨j, d⟩ := jd
      rw [hsc] at hr
      obtain ⟨hmem, hstep, hbefore⟩ :=
        tobjScan_fst_some s _ (alignedPositions_pairwise _) j d hsc
      obtain ⟨hacc, hd⟩ := (tobjStep_eq_some_iff s j d).mp hstep
      injection hr with hr1
      refine ⟨j, hmem, hacc, ?_, ?_, ?_⟩
      · rw [← hr1]
      · rw [← hr1]; exact hd
      · intro j' hj' hlt hacc2
        exact (tobjStep_eq_none_iff s j').mp (hbefore j' hj' hlt) hacc2
  · intro hn j hj hacc
    unfold find_tobject at hn
    cases hsc : (tobjScan s (tobjPositions s)).1 with
    | some jd => rw [hsc] at hn; exact Option.noConfusion hn
    | none =>
      exact (tobjStep_eq_none_iff s j).mp (tobjScan_fst_none s _ hsc j hj) hacc

theorem c1_witness : c1Statement (exSection 4096) := c1_find_tobject (exSection 4096)

/-- C9: a code section shorter than 128 bytes yields zero candidate
positions, an empty read log (no byte of the section is touched, so no
out-of-bounds read can occur) and no result. -/
theorem c9_short_section (s : SectionMap) (h : s.size < 128) :
    tobjPositions s = [] ∧ find_tobject s = none ∧ tobjReads s = [] := by
  have hpos : tobjPositions s = [] := by
    unfold tobjPositions alignedPositions
    have hz : (((s.size : ℤ) - 128).toNat + 3) / 4 = 0 := by omega
    rw [hz]
    rfl
  refine ⟨hpos, ?_, ?_⟩
  · unfold find_tobject
    rw [hpos]
    rfl
  · unfold tobjReads
    rw [hpos]
    rfl

theorem c9_witness :
    exSmall.size < 128 ∧
    (tobjPositions exSmall = [] ∧ find_tobject exSmall = none ∧ tobjReads exSmall = []) :=
  ⟨by decide, c9_short_section exSmall (by decide)⟩

theorem vfHeaderError_eq_false_iff (s : SectionMap) (i : ℕ) :
    vfHeaderError s i = false ↔
      ∀ k < 5, s.read_u32 (i + 4 + 4 * k) = 0 ∨
        s.contains_va (s.read_u32 (i + 4 + 4 * k)) = true := by
  unfold vfHeaderError
  rw [List.any_eq_false]
  constructor
  · intro h k hk
    have hm := h k (List.mem_range.mpr hk)
    by_cases h0 : s.read_u32 (i + 4 + 4 * k) = 0
    · exact Or.inl h0
    · right
      by_contra hc
      exact hm (by simp [h0, hc])
  · intro h k hk
    rcases h k (List.mem_range.mp hk) with h0 | hc
    · simp [h0]
    · simp [hc]

theorem vfStep_iff (s : SectionMap) (H : ℤ) (i : ℕ) :
    vfStep s H i = true ↔ vfAcceptSpec s H i := by
  unfold vfStep vfAcceptSpec
  by_cases hc : ((s.load_address + i : ℕ) : ℤ) + H = (s.read_u32 i : ℤ)
  · rw [if_pos hc, Bool.not_eq_true', vfHeaderError_eq_false_iff]
    constructor
    · intro h
      refine ⟨by push_cast at hc ⊢; omega, h⟩
    · intro h
      exact h.2
  · rw [if_neg hc]
    constructor
    · intro h
      exact absurd h (by simp)
    · intro h
      exact absurd (by push_cast at h ⊢; omega : ((s.load_address + i : ℕ) : ℤ) + H = (s.read_u32 i : ℤ)) hc

theorem vfStep_eq_decide (s : SectionMap) (H : ℤ) (i : ℕ) :
    vfStep s H i = decide (vfAcceptSpec s H i) := by
  by_cases h : vfAcceptSpec s H i
  · rw [(vfStep_iff s H i).mpr h, decide_eq_true h]
  · cases hb : vfStep s H i with
    | true => exact absurd ((vfStep_iff s H i).mp hb) h
    | false => rw [decide_eq_false h]

theorem find_vftables_fold (s : SectionMap) (H : ℤ) :
    ∀ (l : List ℕ) (n : ℕ) (acc : List WorkItem),
      l.foldl
        (fun acc i =>
          if vfStep s H i then (acc.1 + 1, acc.2 ++ [⟨s.load_address + i, ObjKind.vftable⟩])
          else acc)
        (n, acc)
      = (n + (l.filter (vfStep s H)).length,
         acc ++ (l.filter (vfStep s H)).map (fun i => ⟨s.load_address + i, ObjKind.vftable⟩)) := by
  intro l
  induction l with
  | nil => intro n acc; simp
  | cons a rest ih =>
    intro n acc
    rw [List.foldl_cons, List.filter_cons]
    by_cases ha : vfStep s H a = true
    · rw [if_pos ha, if_pos ha, ih]
      refine Prod.ext ?_ ?_ <;> simp <;> omega
    · rw [if_neg ha, if_neg (by simpa using ha), ih]

/-- C2: given header length `H`, `_find_vftables` visits exactly the
4-byte-aligned offsets below `size - H`, enqueues `load_address + i` as a
virtual-table candidate exactly at the offsets whose self pointer equals
`load_address + i + H` and whose five following header slots are each zero
or in-section, and returns the number of candidates enqueued (it
constructs no object: it only counts and produces queue entries). -/
theorem c2_find_vftables (s : SectionMap) (H : ℤ) : c2Statement s H := by
  have hfilter :
      (vfPositions s H).filter (vfStep s H)
        = (vfPositions s H).filter (fun i => decide (vfAcceptSpec s H i)) :=
    List.filter_congr (fun i _ => vfStep_eq_decide s H i)
  refine ⟨fun i => mem_alignedPositions _ i, ?_, ?_⟩
  · unfold find_vftables
    rw [find_vftables_fold s H _ 0 [], hfilter]
    simp
  · unfold find_vftables
    rw [find_vftables_fold s H _ 0 []]
    simp

theorem c2_witness : c2Statement (exSection 4096) 40 := c2_find_vftables (exSection 4096) 40

theorem drainA_spec (m : ObjectModel) (cs : SectionMap) :
    ∀ (fuel : ℕ) (q : List WorkItem) (ctx : Context) (tr : List Event),
      ∃ ext,
        (drainA m cs fuel q ctx tr).2.2.1 = tr ++ ext ∧
        (∀ e ∈ ext, ∃ loc k ok, e = Event.construct 1 cs.load_address loc k ok) ∧
        (drainA m cs fuel q ctx tr).1.items = ctx.items ++ ext.filterMap constructSuccess ∧
        (drainA m cs fuel q ctx tr).1.version = ctx.version ∧
        ((drainA m cs fuel q ctx tr).2.2.2 = true →
          getItemFiltered (drainA m cs fuel q ctx tr).2.1 ObjKind.vftable = none) ∧
        ((drainA m cs fuel q ctx tr).2.2.2 = false → ext.length = fuel) := by
  intro fuel
  induction fuel with
  | zero =>
    intro q ctx tr
    refine ⟨[], by simp [drainA], by simp, by simp [drainA], by simp [drainA], ?_, ?_⟩
    · intro h
      simp only [drainA] at h ⊢
      exact Option.isNone_iff_eq_none.mp h
    · intro h
      rfl
  | succ fuel ih =>
    intro q ctx tr
    cases hq : getItemFiltered q ObjKind.vftable with
    | none =>
      refine ⟨[], by simp [drainA, hq], by simp, by simp [drainA, hq],
        by simp [drainA, hq], ?_, ?_⟩
      · intro _
        simp [drainA, hq]
      · intro h
        simp [drainA, hq] at h
    | some itq =>
      obtain ⟨it, q2⟩ := itq
      by_cases hc : (m.construct cs it.location it.kind ctx).2 = true
      · obtain ⟨ext, h1, h2, h3, h3v, h4, h5⟩ :=
          ih (q2 ++ (m.construct cs it.location it.kind ctx).1)
             { ctx with items := ctx.items ++ [it] }
             (tr ++ [Event.construct 1 cs.load_address it.location it.kind true])
        have hun : drainA m cs (fuel + 1) q ctx tr =
            drainA m cs fuel (q2 ++ (m.construct cs it.location it.kind ctx).1)
              { ctx with items := ctx.items ++ [it] }
              (tr ++ [Event.construct 1 cs.load_address it.location it.kind true]) := by
          simp [drainA, hq, hc]
        refine ⟨Event.construct 1 cs.load_address it.location it.kind true :: ext,
          ?_, ?_, ?_, ?_, ?_, ?_⟩
        · rw [hun, h1]
          simp
        · intro e he
          rcases List.mem_cons.mp he with rfl | he2
          · exact ⟨it.location, it.kind, true, rfl⟩
          · exact h2 e he2
        · rw [hun, h3]
          simp [constructSuccess]
        · rw [hun, h3v]
        · rw [hun]
          exact h4
        · rw [hun]
          intro h
          simp [h5 h]
      · obtain ⟨ext, h1, h2, h3, h3v, h4, h5⟩ :=
          ih (q2 ++ (m.construct cs it.location it.kind ctx).1) ctx
             (tr ++ [Event.construct 1 cs.load_address it.location it.kind false])
        have hun : drainA m cs (fuel + 1) q ctx tr =
            drainA m cs fuel (q2 ++ (m.construct cs it.location it.kind ctx).1) ctx
              (tr ++ [Event.construct 1 cs.load_address it.location it.kind false]) := by
          simp [drainA, hq, hc]
        refine ⟨Event.construct 1 cs.load_address it.location it.kind false :: ext,
          ?_, ?_, ?_, ?_, ?_, ?_⟩
        · rw [hun, h1]
          simp
        · intro e he
          rcases List.mem_cons.mp he with rfl | he2
          · exact ⟨it.location, it.kind, false, rfl⟩
          · exact h2 e he2
        · rw [hun, h3]
          simp [constructSuccess]
        · rw [hun, h3v]
        · rw [hun]
          exact h4
        · rw [hun]
          intro h
          simp [h5 h]

theorem drainB_spec (m : ObjectModel) (cs : SectionMap) :
    ∀ (fuel : ℕ) (q : List WorkItem) (ctx : Context) (tr : List Event),
      ∃ ext,
        (drainB m cs fuel q ctx tr).2.2.1 = tr ++ ext ∧
        (∀ e ∈ ext, ∃ loc k ok, e = Event.construct 2 cs.load_address loc k ok) ∧
        (drainB m cs fuel q ctx tr).1.items = ctx.items ++ ext.filterMap constructSuccess ∧
        (drainB m cs fuel q ctx tr).1.version = ctx.version ∧
        ((drainB m cs fuel q ctx tr).2.2.2 = true → (drainB m cs fuel q ctx tr).2.1 = []) ∧
        ((drainB m cs fuel q ctx tr).2.2.2 = false → ext.length = fuel) := by
  intro fuel
  induction fuel with
  | zero =>
    intro q ctx tr
    refine ⟨[], by simp [drainB], by simp, by simp [drainB], by simp [drainB], ?_, ?_⟩
    · intro h
      simp only [drainB] at h ⊢
      exact List.isEmpty_iff.mp h
    · intro h
      rfl
  | succ fuel ih =>
    intro q ctx tr
    cases q with
    | nil =>
      exact ⟨[], by simp [drainB], by simp, by simp [drainB], by simp [drainB],
        fun _ => by simp [drainB], fun h => by simp [drainB] at h⟩
    | cons it q2 =>
      by_cases hc : (m.construct cs it.location it.kind ctx).2 = true
      · obtain ⟨ext, h1, h2, h3, h3v, h4, h5⟩ :=
          ih (q2 ++ (m.construct cs it.location it.kind ctx).1)
             { ctx with items := ctx.items ++ [it] }
             (tr ++ [Event.construct 2 cs.load_address it.location it.kind true])
        have hun : drainB m cs (fuel + 1) (it :: q2) ctx tr =
            drainB m cs fuel (q2 ++ (m.construct cs it.location it.kind ctx).1)
              { ctx with items := ctx.items ++ [it] }
              (tr ++ [Event.construct 2 cs.load_address it.location it.kind true]) := by
          simp [drainB, hc]
        refine ⟨Event.construct 2 cs.load_address it.location it.kind true :: ext,
          ?_, ?_, ?_, ?_, ?_, ?_⟩
        · rw [hun, h1]
          simp
        · intro e he
          rcases List.mem_cons.mp he with rfl | he2
          · exact ⟨it.location, it.kind, true, rfl⟩
          · exact h2 e he2
        · rw [hun, h3]
          simp [constructSuccess]
        · rw [hun, h3v]
        · rw [hun]
          exact h4
        · rw [hun]
          intro h
          simp [h5 h]
      · obtain ⟨ext, h1, h2, h3, h3v, h4, h5⟩ :=
          ih (q2 ++ (m.construct cs it.location it.kind ctx).1) ctx
             (tr ++ [Event.construct 2 cs.load_address it.location it.kind false])
        have hun : drainB m cs (fuel + 1) (it :: q2) ctx tr =
            drainB m cs fuel (q2 ++ (m.construct cs it.location it.kind ctx).1) ctx
              (tr ++ [Event.construct 2 cs.load_address it.location it.kind false]) := by
          simp [drainB, hc]
        refine ⟨Event.construct 2 cs.load_address it.location it.kind false :: ext,
          ?_, ?_, ?_, ?_, ?_, ?_⟩
        · rw [hun, h1]
          simp
        · intro e he
          rcases List.mem_cons.mp he with rfl | he2
          · exact ⟨it.location, it.kind, false, rfl⟩
          · exact h2 e he2
        · rw [hun, h3]
          simp [constructSuccess]
        · rw [hun, h3v]
        · rw [hun]
          exact h4
        · rw [hun]
          intro h
          simp [h5 h]

theorem tobjectStage_all_none :
    ∀ (l : List SectionMap), (∀ s ∈ l, find_tobject s = none) →
      ∀ acc, tobjectStage l acc = .ok acc := by
  intro l
  induction l with
  | nil => intro _ acc; rfl
  | cons s rest ih =>
    intro h acc
    have hs := h s (List.mem_cons_self _ _)
    simp only [tobjectStage, hs]
    exact ih (fun t ht => h t (List.mem_cons_of_mem _ ht)) acc

theorem tobjectStage_error_of_acc (x : SectionMap × ℤ) :
    ∀ (l : List SectionMap), (∃ s ∈ l, (find_tobject s).isSome = true) →
      tobjectStage l (some x) = .error x := by
  intro l
  induction l with
  | nil => rintro ⟨s, hs, _⟩; cases hs
  | cons s rest ih =>
    rintro ⟨t, ht, htf⟩
    cases hf : find_tobject s with
    | some r => simp [tobjectStage, hf]
    | none =>
      simp only [tobjectStage, hf]
      apply ih
      rcases List.mem_cons.mp ht with rfl | ht2
      · rw [hf] at htf
        cases htf
      · exact ⟨t, ht2, htf⟩

def tobjCountP (l : List SectionMap) : ℕ := l.countP (fun s => (find_tobject s).isSome)

theorem tobjectStage_error_of_two :
    ∀ (l : List SectionMap), 2 ≤ tobjCountP l →
      ∃ f, tobjectStage l none = .error f := by
  intro l
  induction l with
  | nil => intro h; simp [tobjCountP] at h
  | cons s rest ih =>
    intro h
    unfold tobjCountP at h
    rw [List.countP_cons] at h
    cases hf : find_tobject s with
    | some r =>
      refine ⟨(s, r.vftable_length), ?_⟩
      simp only [tobjectStage, hf]
      apply tobjectStage_error_of_acc
      simp [hf] at h
      exact h
    | none =>
      simp only [tobjectStage, hf]
      apply ih
      unfold tobjCountP
      simp [hf] at h
      exact h

theorem tobjectStage_ok_none_of_zero (l : List SectionMap) (h : tobjCountP l = 0) :
    tobjectStage l none = .ok none := by
  apply tobjectStage_all_none
  intro s hs
  have hn := List.countP_eq_zero.mp h s hs
  simpa [Option.isNone_iff_eq_none] using hn

theorem analyse_inl (m : ObjectModel) (fuelA fuelB : ℕ) (inp : AnalyseInput)
    (r : AnalyseResult) (h : analyseToPassA m fuelA inp = .inl r) :
    analyse m fuelA fuelB inp = r := by
  simp [analyse, h]

theorem analyse_inr (m : ObjectModel) (fuelA fuelB : ℕ) (inp : AnalyseInput)
    (cs : SectionMap) (ctx2 : Context) (q2 : List WorkItem) (tr2 : List Event)
    (h : analyseToPassA m fuelA inp = .inr (cs, ctx2, q2, tr2)) :
    analyse m fuelA fuelB inp =
      ⟨(drainB m cs fuelB q2 { ctx2 with version := some (m.inferVersion ctx2) }
          (tr2 ++ [Event.versionInfer])).1,
       (drainB m cs fuelB q2 { ctx2 with version := some (m.inferVersion ctx2) }
          (tr2 ++ [Event.versionInfer])).2.2.1,
       (drainB m cs fuelB q2 { ctx2 with version := some (m.inferVersion ctx2) }
          (tr2 ++ [Event.versionInfer])).2.1,
       if (drainB m cs fuelB q2 { ctx2 with version := some (m.inferVersion ctx2) }
          (tr2 ++ [Event.versionInfer])).2.2.2 then Outcome.completed
       else Outcome.fuelExhaustedB⟩ := by
  simp [analyse, h]

theorem analyseToPassA_none_sel (m : ObjectModel) (fuelA : ℕ) (inp : AnalyseInput)
    (h : selectCodeSection inp = none) :
    analyseToPassA m fuelA inp = .inl ⟨initialContext inp, [], [], .fatalNoCodeSection⟩ := by
  simp [analyseToPassA, h]

theorem analyseToPassA_error (m : ObjectModel) (fuelA : ℕ) (inp : AnalyseInput)
    (cs : SectionMap) (f : SectionMap × ℤ) (hsel : selectCodeSection inp = some cs)
    (he : tobjectStage inp.codeSections none = .error f) :
    analyseToPassA m fuelA inp =
      .inl ⟨{ initialContext inp with
                header_length := some f.2, object_section := some f.1 },
            initTrace inp, [], .fatalMultiTObject⟩ := by
  simp [analyseToPassA, hsel, he]

theorem analyseToPassA_ok_none (m : ObjectModel) (fuelA : ℕ) (inp : AnalyseInput)
    (cs : SectionMap) (hsel : selectCodeSection inp = some cs)
    (ho : tobjectStage inp.codeSections none = .ok none) :
    analyseToPassA m fuelA inp =
      .inl ⟨initialContext inp, initTrace inp, [], .fatalNoTObject⟩ := by
  simp [analyseToPassA, hsel, ho]

theorem analyseToPassA_inr_shape (m : ObjectModel) (fuelA : ℕ) (inp : AnalyseInput)
    (cs : SectionMap) (ctx2 : Context) (q2 : List WorkItem) (tr2 : List Event)
    (h : analyseToPassA m fuelA inp = .inr (cs, ctx2, q2, tr2)) :
    selectCodeSection inp = some cs ∧
    getItemFiltered q2 ObjKind.vftable = none ∧
    ctx2.version = none ∧
    ∃ f extA,
      tr2 = initTrace inp ++ Event.scanVftables f :: extA ∧
      (∀ e ∈ extA, ∃ loc k ok, e = Event.construct 1 cs.load_address loc k ok) ∧
      ctx2.items = extA.filterMap constructSuccess := by
  cases hsel : selectCodeSection inp with
  | none =>
    simp [analyseToPassA, hsel] at h
  | some cs0 =>
    cases hts : tobjectStage inp.codeSections none with
    | error f =>
      simp [analyseToPassA, hsel, hts] at h
    | ok oacc =>
      cases oacc with
      | none =>
        simp [analyseToPassA, hsel, hts] at h
      | some ol =>
        obtain ⟨osec, len⟩ := ol
        simp only [analyseToPassA, hsel, hts] at h
        obtain ⟨extA, hs1, hs2, hs3, hs4, hs5, hs6⟩ :=
          drainA_spec m cs0 fuelA (find_vftables osec len).2 (scanContext inp osec len)
            (initTrace inp ++ [Event.scanVftables (find_vftables osec len).1])
        split at h
        next hcond =>
          simp only [Sum.inr.injEq, Prod.mk.injEq] at h
          obtain ⟨hcs, hctx, hq, htr⟩ := h
          subst hcs
          refine ⟨rfl, ?_, ?_, (find_vftables osec len).1, extA, ?_, hs2, ?_⟩
          · rw [← hq]
            exact hs5 hcond
          · rw [← hctx, hs4]
            rfl
          · rw [← htr, hs1]
            simp
          · rw [← hctx, hs3]
            simp [scanContext]
        next hcond =>
          simp at h

theorem analyseToPassA_inl_shape (m : ObjectModel) (fuelA : ℕ) (inp : AnalyseInput)
    (r : AnalyseResult) (h : analyseToPassA m fuelA inp = .inl r) :
    (r.outcome = .fatalNoCodeSection ∧ selectCodeSection inp = none ∧ r.trace = [] ∧
       r.queue = [] ∧ r.ctx.items = [] ∧ r.ctx.version = none ∧
       r.ctx.code_sections = inp.codeSections ∧ r.ctx.data_sections = inp.dataSections) ∨
    (r.outcome = .fatalMultiTObject ∧ r.trace = initTrace inp ∧ r.queue = [] ∧
       r.ctx.items = [] ∧ r.ctx.version = none ∧
       r.ctx.code_sections = inp.codeSections ∧ r.ctx.data_sections = inp.dataSections ∧
       ∃ f, tobjectStage inp.codeSections none = Except.error f) ∨
    (r.outcome = .fatalNoTObject ∧ r.trace = initTrace inp ∧ r.queue = [] ∧
       r.ctx.items = [] ∧ r.ctx.version = none ∧
       r.ctx.code_sections = inp.codeSections ∧ r.ctx.data_sections = inp.dataSections ∧
       tobjectStage inp.codeSections none = Except.ok none) ∨
    (r.outcome = .fuelExhaustedA ∧ ∃ cs f extA,
       selectCodeSection inp = some cs ∧
       r.trace = initTrace inp ++ Event.scanVftables f :: extA ∧
       (∀ e ∈ extA, ∃ loc k ok, e = Event.construct 1 cs.load_address loc k ok) ∧
       r.ctx.items = extA.filterMap constructSuccess ∧ r.ctx.version = none ∧
       extA.length = fuelA) := by
  cases hsel : selectCodeSection inp with
  | none =>
    rw [analyseToPassA_none_sel m fuelA inp hsel] at h
    injection h with h2
    subst h2
    exact Or.inl ⟨rfl, rfl, rfl, rfl, rfl, rfl, rfl, rfl⟩
  | some cs0 =>
    cases hts : tobjectStage inp.codeSections none with
    | error f =>
      rw [analyseToPassA_error m fuelA inp cs0 f hsel hts] at h
      injection h with h2
      subst h2
      exact Or.inr (Or.inl ⟨rfl, rfl, rfl, rfl, rfl, rfl, rfl, f, rfl⟩)
    | ok oacc =>
      cases oacc with
      | none =>
        rw [analyseToPassA_ok_none m fuelA inp cs0 hsel hts] at h
        injection h with h2
        subst h2
        exact Or.inr (Or.inr (Or.inl ⟨rfl, rfl, rfl, rfl, rfl, rfl, rfl, rfl⟩))
      | some ol =>
        obtain ⟨osec, len⟩ := ol
        simp only [analyseToPassA, hsel, hts] at h
        obtain ⟨extA, hs1, hs2, hs3, hs4, hs5, hs6⟩ :=
          drainA_spec m cs0 fuelA (find_vftables osec len).2 (scanContext inp osec len)
            (initTrace inp ++ [Event.scanVftables (find_vftables osec len).1])
        split at h
        next hcond =>
          simp at h
        next hcond =>
          injection h with h2
          subst h2
          refine Or.inr (Or.inr (Or.inr ⟨rfl, cs0, (find_vftables osec len).1, extA,
            rfl, ?_, hs2, ?_, ?_, ?_⟩))
          · show (drainA m cs0 fuelA (find_vftables osec len).2 (scanContext inp osec len)
                (initTrace inp ++
                  [Event.scanVftables (find_vftables osec len).1])).2.2.1 = _
            rw [hs1]
            simp
          · show (drainA m cs0 fuelA (find_vftables osec len).2 (scanContext inp osec len)
                (initTrace inp ++
                  [Event.scanVftables (find_vftables osec len).1])).1.items = _
            rw [hs3]
            simp [scanContext]
          · show (drainA m cs0 fuelA (find_vftables osec len).2 (scanContext inp osec len)
                (initTrace inp ++
                  [Event.scanVftables (find_vftables osec len).1])).1.version = none
            rw [hs4]
            rfl
          · exact hs6 (by simpa using hcond)

theorem analyse_run (m : ObjectModel) (fuelA fuelB : ℕ) (inp : AnalyseInput)
    (cs : SectionMap) (ctx2 : Context) (q2 : List WorkItem) (tr2 : List Event)
    (h : analyseToPassA m fuelA inp = .inr (cs, ctx2, q2, tr2)) :
    ∃ extB,
      (analyse m fuelA fuelB inp).trace = tr2 ++ Event.versionInfer :: extB ∧
      (∀ e ∈ extB, ∃ loc k ok, e = Event.construct 2 cs.load_address loc k ok) ∧
      (analyse m fuelA fuelB inp).ctx.items =
        ctx2.items ++ extB.filterMap constructSuccess ∧
      (analyse m fuelA fuelB inp).ctx.version = some (m.inferVersion ctx2) ∧
      ((analyse m fuelA fuelB inp).outcome = Outcome.completed ∨
        (analyse m fuelA fuelB inp).outcome = Outcome.fuelExhaustedB) ∧
      ((analyse m fuelA fuelB inp).outcome = Outcome.completed →
        (analyse m fuelA fuelB inp).queue = []) ∧
      ((analyse m fuelA fuelB inp).outcome = Outcome.fuelExhaustedB →
        extB.length = fuelB) := by
  have ha := analyse_inr m fuelA fuelB inp cs ctx2 q2 tr2 h
  obtain ⟨extB, hs1, hs2, hs3, hs4, hs5, hs6⟩ :=
    drainB_spec m cs fuelB q2 { ctx2 with version := some (m.inferVersion ctx2) }
      (tr2 ++ [Event.versionInfer])
  refine ⟨extB, ?_, hs2, ?_, ?_, ?_, ?_, ?_⟩
  · rw [ha, hs1]
    simp
  · rw [ha, hs3]
  · rw [ha, hs4]
  · rw [ha]
    cases hb : (drainB m cs fuelB q2 { ctx2 with version := some (m.inferVersion ctx2) }
        (tr2 ++ [Event.versionInfer])).2.2.2
    · right
      simp [hb]
    · left
      simp [hb]
  · intro hc
    rw [ha] at hc
    cases hb : (drainB m cs fuelB q2 { ctx2 with version := some (m.inferVersion ctx2) }
        (tr2 ++ [Event.versionInfer])).2.2.2
    · rw [hb] at hc
      simp at hc
    · rw [ha]
      exact hs5 hb
  · intro hc
    rw [ha] at hc
    cases hb : (drainB m cs fuelB q2 { ctx2 with version := some (m.inferVersion ctx2) }
        (tr2 ++ [Event.versionInfer])).2.2.2
    · exact hs6 hb
    · rw [hb] at hc
      simp at hc

theorem initTrace_events (inp : AnalyseInput) :
    ∀ e ∈ initTrace inp, e = Event.parseInitTable := by
  intro e he
  unfold initTrace at he
  cases htp : inp.tablePos with
  | none =>
    rw [htp] at he
    simp at he
  | some v =>
    rw [htp] at he
    simpa using he

theorem preTrace_no_pass2 (inp : AnalyseInput) (cs : SectionMap) (f : ℕ) (extA : List Event)
    (hextA : ∀ e ∈ extA, ∃ loc k ok, e = Event.construct 1 cs.load_address loc k ok) :
    ∀ e ∈ initTrace inp ++ Event.scanVftables f :: extA,
      ∀ sec loc k ok, e ≠ Event.construct 2 sec loc k ok := by
  intro e he sec loc k ok hee
  subst hee
  rcases List.mem_append.mp he with hm | hm
  · exact Event.noConfusion (initTrace_events inp _ hm)
  · rcases List.mem_cons.mp hm with he2 | hm2
    · exact Event.noConfusion he2
    · obtain ⟨loc2, k2, ok2, hee2⟩ := hextA _ hm2
      simp at hee2

theorem trace_count_versionInfer (inp : AnalyseInput) (cs : SectionMap) (f : ℕ)
    (extA extB : List Event)
    (hextA : ∀ e ∈ extA, ∃ loc k ok, e = Event.construct 1 cs.load_address loc k ok)
    (hextB : ∀ e ∈ extB, ∃ loc k ok, e = Event.construct 2 cs.load_address loc k ok) :
    ((initTrace inp ++ Event.scanVftables f :: extA) ++
        Event.versionInfer :: extB).count Event.versionInfer = 1 := by
  have h1 : (initTrace inp ++ Event.scanVftables f :: extA).count Event.versionInfer = 0 := by
    rw [List.count_eq_zero]
    intro hmem
    rcases List.mem_append.mp hmem with hm | hm
    · exact Event.noConfusion (initTrace_events inp _ hm)
    · rcases List.mem_cons.mp hm with he | hm2
      · exact Event.noConfusion he
      · obtain ⟨loc2, k2, ok2, hee⟩ := hextA _ hm2
        exact Event.noConfusion hee
  have h2 : extB.count Event.versionInfer = 0 := by
    rw [List.count_eq_zero]
    intro hmem
    obtain ⟨loc2, k2, ok2, hee⟩ := hextB _ hmem
    exact Event.noConfusion hee
  rw [List.count_append, h1, List.count_cons_self, h2]

/-- A run that reaches version inference decomposes as: the pass-A prefix
(init-table parse, the scan event, then only pass-1 constructions), the
single version-inference event, then only pass-2 constructions; at the
moment of version inference the queue holds no vftable-kind item, and the
version fact stored in the context is the one inferred from the pass-A
context. -/
theorem analyse_completed_decomp (m : ObjectModel) (fuelA fuelB : ℕ) (inp : AnalyseInput)
    (h : (analyse m fuelA fuelB inp).outcome = Outcome.completed ∨
         (analyse m fuelA fuelB inp).outcome = Outcome.fuelExhaustedB) :
    ∃ cs ctx2 q2 f extA extB,
      analyseToPassA m fuelA inp =
        Sum.inr (cs, ctx2, q2, initTrace inp ++ Event.scanVftables f :: extA) ∧
      (analyse m fuelA fuelB inp).trace =
        (initTrace inp ++ Event.scanVftables f :: extA) ++ Event.versionInfer :: extB ∧
      (∀ e ∈ extA, ∃ loc k ok, e = Event.construct 1 cs.load_address loc k ok) ∧
      (∀ e ∈ extB, ∃ loc k ok, e = Event.construct 2 cs.load_address loc k ok) ∧
      getItemFiltered q2 ObjKind.vftable = none ∧
      (analyse m fuelA fuelB inp).ctx.version = some (m.inferVersion ctx2) := by
  cases hA : analyseToPassA m fuelA inp with
  | inl r =>
    exfalso
    have he := analyse_inl m fuelA fuelB inp r hA
    rcases analyseToPassA_inl_shape m fuelA inp r hA with
      ⟨h1, _⟩ | ⟨h1, _⟩ | ⟨h1, _⟩ | ⟨h1, _⟩ <;>
      (rw [he, h1] at h; rcases h with hc | hc <;> exact Outcome.noConfusion hc)
  | inr t =>
    obtain ⟨cs, ctx2, q2, tr2⟩ := t
    obtain ⟨hsel, hqf, hver, f, extA, htr2, hextA, hitems⟩ :=
      analyseToPassA_inr_shape m fuelA inp cs ctx2 q2 tr2 hA
    obtain ⟨extB, hb1, hb2, hb3, hb4, hb5, hb6, hb7⟩ :=
      analyse_run m fuelA fuelB inp cs ctx2 q2 tr2 hA
    subst htr2
    exact ⟨cs, ctx2, q2, f, extA, extB, rfl, hb1, hextA, hb2, hqf, hb4⟩

theorem initTrace_filterMap (inp : AnalyseInput) :
    (initTrace inp).filterMap constructSuccess = [] := by
  unfold initTrace
  cases inp.tablePos <;> simp [constructSuccess]

theorem trace_filterMap (inp : AnalyseInput) (f : ℕ) (extA extB : List Event) :
    (((initTrace inp ++ Event.scanVftables f :: extA) ++
        Event.versionInfer :: extB).filterMap constructSuccess)
      = extA.filterMap constructSuccess ++ extB.filterMap constructSuccess := by
  rw [List.filterMap_append, List.filterMap_append, initTrace_filterMap]
  simp [constructSuccess]

theorem countP_pass (p : ℕ) (inp : AnalyseInput) (f : ℕ) (l : List Event) :
    (initTrace inp ++ Event.scanVftables f :: l).countP (isConstructPass p)
      = l.countP (isConstructPass p) := by
  rw [List.countP_append, List.countP_cons]
  have h0 : (initTrace inp).countP (isConstructPass p) = 0 := by
    unfold initTrace
    cases inp.tablePos <;> simp [isConstructPass]
  simp [h0, isConstructPass]

theorem countP_pass_all (p : ℕ) (cs : SectionMap) (l : List Event)
    (hl : ∀ e ∈ l, ∃ loc k ok, e = Event.construct p cs.load_address loc k ok) :
    l.countP (isConstructPass p) = l.length := by
  rw [List.countP_eq_length]
  intro e he
  obtain ⟨loc, k, ok, rfl⟩ := hl e he
  simp [isConstructPass]

theorem countP_pass_none (p : ℕ) (cs : SectionMap) (q : ℕ) (l : List Event)
    (hne : q ≠ p)
    (hl : ∀ e ∈ l, ∃ loc k ok, e = Event.construct q cs.load_address loc k ok) :
    l.countP (isConstructPass p) = 0 := by
  rw [List.countP_eq_zero]
  intro e he
  obtain ⟨loc, k, ok, rfl⟩ := hl e he
  simp [isConstructPass, hne]

/-- C3: in every analysis run that reaches the parsing stage (no fatal
abort and pass A exhausted), version inference is performed exactly once,
after pass A has exhausted all virtual-table work items (no vftable-kind
item remains dequeueable at that moment) and before any pass-B item is
constructed; the stored `context.version` is the fact inferred from the
pass-A context holding the recovered virtual tables. -/
theorem c3_version_inference_once (m : ObjectModel) (fuelA fuelB : ℕ) (inp : AnalyseInput)
    (h : (analyse m fuelA fuelB inp).outcome = Outcome.completed ∨
         (analyse m fuelA fuelB inp).outcome = Outcome.fuelExhaustedB) :
    (analyse m fuelA fuelB inp).trace.count Event.versionInfer = 1 ∧
    ∃ cs ctx2 q2 pre post,
      analyseToPassA m fuelA inp = Sum.inr (cs, ctx2, q2, pre) ∧
      (analyse m fuelA fuelB inp).trace = pre ++ Event.versionInfer :: post ∧
      getItemFiltered q2 ObjKind.vftable = none ∧
      (∀ e ∈ pre, ∀ sec loc k ok, e ≠ Event.construct 2 sec loc k ok) ∧
      (∀ e ∈ post, ∃ loc k ok, e = Event.construct 2 cs.load_address loc k ok) ∧
      (analyse m fuelA fuelB inp).ctx.version = some (m.inferVersion ctx2) := by
  obtain ⟨cs, ctx2, q2, f, extA, extB, hA, htr, hextA, hextB, hq, hv⟩ :=
    analyse_completed_decomp m fuelA fuelB inp h
  constructor
  · rw [htr]
    exact trace_count_versionInfer inp cs f extA extB hextA hextB
  · exact ⟨cs, ctx2, q2, initTrace inp ++ Event.scanVftables f :: extA, extB,
      hA, by rw [htr], hq, preTrace_no_pass2 inp cs f extA hextA, hextB, hv⟩

theorem c3_witness :
    (analyse exModel 8 8 exInput).trace.count Event.versionInfer = 1 ∧
    ∃ cs ctx2 q2 pre post,
      analyseToPassA exModel 8 exInput = Sum.inr (cs, ctx2, q2, pre) ∧
      (analyse exModel 8 8 exInput).trace = pre ++ Event.versionInfer :: post ∧
      getItemFiltered q2 ObjKind.vftable = none ∧
      (∀ e ∈ pre, ∀ sec loc k ok, e ≠ Event.construct 2 sec loc k ok) ∧
      (∀ e ∈ post, ∃ loc k ok, e = Event.construct 2 cs.load_address loc k ok) ∧
      (analyse exModel 8 8 exInput).ctx.version = some (exModel.inferVersion ctx2) :=
  c3_version_inference_once exModel 8 8 exInput (Or.inl (by decide))

/-- C8 (amended): in every analysis run that reaches the parsing stage,
the version inferer runs exactly once, and pass B — not pass A, which by
design runs before version inference — never constructs any object before
the version inferer has run. -/
theorem c8_version_before_pass_b (m : ObjectModel) (fuelA fuelB : ℕ) (inp : AnalyseInput)
    (h : (analyse m fuelA fuelB inp).outcome = Outcome.completed ∨
         (analyse m fuelA fuelB inp).outcome = Outcome.fuelExhaustedB) :
    (analyse m fuelA fuelB inp).trace.count Event.versionInfer = 1 ∧
    ∃ pre post,
      (analyse m fuelA fuelB inp).trace = pre ++ Event.versionInfer :: post ∧
      ∀ e ∈ pre, ∀ sec loc k ok, e ≠ Event.construct 2 sec loc k ok := by
  obtain ⟨cs, ctx2, q2, f, extA, extB, hA, htr, hextA, hextB, hq, hv⟩ :=
    analyse_completed_decomp m fuelA fuelB inp h
  exact ⟨by rw [htr]; exact trace_count_versionInfer inp cs f extA extB hextA hextB,
    initTrace inp ++ Event.scanVftables f :: extA, extB, by rw [htr],
    preTrace_no_pass2 inp cs f extA hextA⟩

theorem c8_witness :
    (analyse exModel 8 8 exInput).trace.count Event.versionInfer = 1 ∧
    ∃ pre post,
      (analyse exModel 8 8 exInput).trace = pre ++ Event.versionInfer :: post ∧
      ∀ e ∈ pre, ∀ sec loc k ok, e ≠ Event.construct 2 sec loc k ok :=
  c8_version_before_pass_b exModel 8 8 exInput (Or.inl (by decide))

/-- C8 counterexample: on a concrete input, after two trace events a
pass-A construction has already happened while the version inferer has
not yet run (it runs later), so "Pass A never constructs any object
before the version inferer has run" is false of the code. -/
theorem c8_counterexample :
    ∃ n, Event.construct 1 4096 4096 ObjKind.vftable true ∈
          ((analyse exModel 8 8 exInput).trace.take n) ∧
        Event.versionInfer ∉ ((analyse exModel 8 8 exInput).trace.take n) ∧
        Event.versionInfer ∈ (analyse exModel 8 8 exInput).trace :=
  ⟨2, by decide⟩

/-- C6: TObject accepted in two or more code sections (or in none) is
fatal: no vftable scan and no construction runs, and the context stays
partially populated. -/
theorem c6_tobject_multiplicity_fatal (m : ObjectModel) (fuelA fuelB : ℕ)
    (inp : AnalyseInput) : c6Statement m fuelA fuelB inp := by
  have hcnt : (acceptingSections inp).length = tobjCountP inp.codeSections := by
    unfold acceptingSections tobjCountP
    rw [List.countP_eq_length_filter]
  refine ⟨?_, ?_, ?_⟩
  · intro h2
    cases hsel : selectCodeSection inp with
    | none =>
      right
      rw [analyse_inl m fuelA fuelB inp _ (analyseToPassA_none_sel m fuelA inp hsel)]
    | some cs =>
      obtain ⟨f, herr⟩ := tobjectStage_error_of_two inp.codeSections (by omega)
      left
      rw [analyse_inl m fuelA fuelB inp _ (analyseToPassA_error m fuelA inp cs f hsel herr)]
  · intro h0
    cases hsel : selectCodeSection inp with
    | none =>
      right
      rw [analyse_inl m fuelA fuelB inp _ (analyseToPassA_none_sel m fuelA inp hsel)]
    | some cs =>
      left
      rw [analyse_inl m fuelA fuelB inp _
        (analyseToPassA_ok_none m fuelA inp cs hsel
          (tobjectStage_ok_none_of_zero _ (by omega)))]
  · intro hf
    cases hA : analyseToPassA m fuelA inp with
    | inr t =>
      exfalso
      obtain ⟨cs, ctx2, q2, tr2⟩ := t
      obtain ⟨extB, _, _, _, _, hb5, _, _⟩ := analyse_run m fuelA fuelB inp cs ctx2 q2 tr2 hA
      rcases hb5 with hc | hc <;> rw [hc] at hf <;>
        rcases hf with h1 | h1 | h1 <;> exact Outcome.noConfusion h1
    | inl r =>
      have he := analyse_inl m fuelA fuelB inp r hA
      rw [he] at hf ⊢
      rcases analyseToPassA_inl_shape m fuelA inp r hA with
        ⟨ho, _, htr, hqe, hit, hver, hcs, hds⟩ |
        ⟨ho, htr, hqe, hit, hver, hcs, hds, _⟩ |
        ⟨ho, htr, hqe, hit, hver, hcs, hds, _⟩ |
        ⟨ho, _⟩
      · refine ⟨?_, hit, hver, hcs, hds⟩
        rw [htr]
        intro e he2
        cases he2
      · refine ⟨?_, hit, hver, hcs, hds⟩
        rw [htr]
        intro e he2
        have hpe := initTrace_events inp e he2
        subst hpe
        exact ⟨fun f h => Event.noConfusion h, fun p sec loc k ok h => Event.noConfusion h⟩
      · refine ⟨?_, hit, hver, hcs, hds⟩
        rw [htr]
        intro e he2
        have hpe := initTrace_events inp e he2
        subst hpe
        exact ⟨fun f h => Event.noConfusion h, fun p sec loc k ok h => Event.noConfusion h⟩
      · exfalso
        rw [ho] at hf
        rcases hf with h1 | h1 | h1 <;> exact Outcome.noConfusion h1

theorem c6_witness :
    (2 ≤ (acceptingSections exInputMulti).length ∧
      ((analyse exModel 8 8 exInputMulti).outcome = Outcome.fatalMultiTObject ∨
       (analyse exModel 8 8 exInputMulti).outcome = Outcome.fatalNoCodeSection)) ∧
    ((acceptingSections exInputNone).length = 0 ∧
      ((analyse exModel 8 8 exInputNone).outcome = Outcome.fatalNoTObject ∨
       (analyse exModel 8 8 exInputNone).outcome = Outcome.fatalNoCodeSection)) :=
  ⟨⟨by decide, (c6_tobject_multiplicity_fatal exModel 8 8 exInputMulti).1 (by decide)⟩,
   ⟨by decide, (c6_tobject_multiplicity_fatal exModel 8 8 exInputNone).2.1 (by decide)⟩⟩

/-- C7: a validation error while constructing one work item never escapes
`analyse` and never aborts the run — the failing item is discarded (items
holds exactly the successful constructions) and the drain continues until
the queue is empty (or its fuel bound, in which case it processed one
item per unit of fuel). -/
theorem c7_validation_errors_contained (m : ObjectModel) (fuelA fuelB : ℕ)
    (inp : AnalyseInput) : c7Statement m fuelA fuelB inp := by
  unfold c7Statement
  cases hA : analyseToPassA m fuelA inp with
  | inl r =>
    have he := analyse_inl m fuelA fuelB inp r hA
    rw [he]
    rcases analyseToPassA_inl_shape m fuelA inp r hA with
      ⟨ho, _, htr, hqe, hit, _⟩ |
      ⟨ho, htr, hqe, hit, _⟩ |
      ⟨ho, htr, hqe, hit, _⟩ |
      ⟨ho, cs, f, extA, hsel, htr, hextA, hit, hver, hlen⟩
    · refine ⟨by rw [htr, hit]; rfl, fun hc => absurd (ho ▸ hc.symm) (by simp), ?_, ?_⟩
      · intro hc
        rw [ho] at hc
        exact Outcome.noConfusion hc
      · intro hc
        rw [ho] at hc
        exact Outcome.noConfusion hc
    · refine ⟨by rw [htr, hit, initTrace_filterMap], ?_, ?_, ?_⟩
      · intro hc
        rw [ho] at hc
        exact Outcome.noConfusion hc
      · intro hc
        rw [ho] at hc
        exact Outcome.noConfusion hc
      · intro hc
        rw [ho] at hc
        exact Outcome.noConfusion hc
    · refine ⟨by rw [htr, hit, initTrace_filterMap], ?_, ?_, ?_⟩
      · intro hc
        rw [ho] at hc
        exact Outcome.noConfusion hc
      · intro hc
        rw [ho] at hc
        exact Outcome.noConfusion hc
      · intro hc
        rw [ho] at hc
        exact Outcome.noConfusion hc
    · refine ⟨?_, ?_, ?_, ?_⟩
      · rw [htr, hit, List.filterMap_append, initTrace_filterMap]
        simp [constructSuccess]
      · intro hc
        rw [ho] at hc
        exact Outcome.noConfusion hc
      · intro hc
        rw [htr, countP_pass 1 inp f extA, countP_pass_all 1 cs extA hextA]
        exact hlen
      · intro hc
        rw [ho] at hc
        exact Outcome.noConfusion hc
  | inr t =>
    obtain ⟨cs, ctx2, q2, tr2⟩ := t
    obtain ⟨hsel, hqf, hver, f, extA, htr2, hextA, hitems⟩ :=
      analyseToPassA_inr_shape m fuelA inp cs ctx2 q2 tr2 hA
    obtain ⟨extB, hb1, hb2, hb3, hb4, hb5, hb6, hb7⟩ :=
      analyse_run m fuelA fuelB inp cs ctx2 q2 tr2 hA
    refine ⟨?_, hb6, ?_, ?_⟩
    · rw [hb3, hitems, hb1, htr2, trace_filterMap]
    · intro hc
      exfalso
      rcases hb5 with h1 | h1 <;> rw [h1] at hc <;> exact Outcome.noConfusion hc
    · intro hc
      rw [hb1, htr2, List.countP_append, countP_pass 2 inp f extA,
        countP_pass_none 2 cs 1 extA (by omega) hextA, List.countP_cons,
        countP_pass_all 2 cs extB hb2]
      simp [isConstructPass, hb7 hc]

theorem c7_witness : c7Statement exModelFail 8 8 exInput :=
  c7_validation_errors_contained exModelFail 8 8 exInput

/-- C10: every object construction in both passes receives the code
section selected at the start of `analyse` (the same section handed to
unit-initialization-table parsing), never `context.object_section` — so
when the two differ, every queued address (including vftable candidates
found inside `object_section`) is parsed against the selected section. -/
theorem c10_constructors_use_selected_section (m : ObjectModel) (fuelA fuelB : ℕ)
    (inp : AnalyseInput) (p sec loc : ℕ) (k : ObjKind) (ok : Bool)
    (h : Event.construct p sec loc k ok ∈ (analyse m fuelA fuelB inp).trace) :
    ∃ cs, selectCodeSection inp = some cs ∧ sec = cs.load_address := by
  cases hA : analyseToPassA m fuelA inp with
  | inl r =>
    have he := analyse_inl m fuelA fuelB inp r hA
    rw [he] at h
    rcases analyseToPassA_inl_shape m fuelA inp r hA with
      ⟨_, _, htr, _⟩ | ⟨_, htr, _⟩ | ⟨_, htr, _⟩ | ⟨_, cs, f, extA, hsel, htr, hextA, _⟩
    · rw [htr] at h
      cases h
    · rw [htr] at h
      exact Event.noConfusion (initTrace_events inp _ h)
    · rw [htr] at h
      exact Event.noConfusion (initTrace_events inp _ h)
    · rw [htr] at h
      rcases List.mem_append.mp h with hm | hm
      · exact Event.noConfusion (initTrace_events inp _ hm)
      · rcases List.mem_cons.mp hm with he2 | hm2
        · exact Event.noConfusion he2
        · obtain ⟨loc2, k2, ok2, hee⟩ := hextA _ hm2
          injection hee with h1 h2 h3 h4 h5
          exact ⟨cs, hsel, h2⟩
  | inr t =>
    obtain ⟨cs, ctx2, q2, tr2⟩ := t
    obtain ⟨hsel, _, _, f, extA, htr2, hextA, _⟩ :=
      analyseToPassA_inr_shape m fuelA inp cs ctx2 q2 tr2 hA
    obtain ⟨extB, hb1, hb2, _⟩ := analyse_run m fuelA fuelB inp cs ctx2 q2 tr2 hA
    rw [hb1, htr2] at h
    rcases List.mem_append.mp h with hm | hm
    · rcases List.mem_append.mp hm with hm1 | hm1
      · exact Event.noConfusion (initTrace_events inp _ hm1)
      · rcases List.mem_cons.mp hm1 with he2 | hm2
        · exact Event.noConfusion he2
        · obtain ⟨loc2, k2, ok2, hee⟩ := hextA _ hm2
          injection hee with h1 h2 h3 h4 h5
          exact ⟨cs, hsel, h2⟩
    · rcases List.mem_cons.mp hm with he2 | hm2
      · exact Event.noConfusion he2
      · obtain ⟨loc2, k2, ok2, hee⟩ := hb2 _ hm2
        injection hee with h1 h2 h3 h4 h5
        exact ⟨cs, hsel, h2⟩

theorem c10_witness :
    (∃ cs, selectCodeSection exInput2 = some cs ∧ 4096 = cs.load_address) ∧
    ((analyse exModel 8 8 exInput2).ctx.object_section.map
        (fun s => s.load_address) = some 8192) ∧
    ((selectCodeSection exInput2).map (fun s => s.load_address) = some 4096) :=
  ⟨c10_constructors_use_selected_section exModel 8 8 exInput2 1 4096 8192
      ObjKind.vftable true (by decide),
   by decide, by decide⟩

/-- C4: the code does not treat a missing unit-initialization table as
fatal.  On a concrete input whose table position is `none`, `analyse`
skips only the table parsing and still runs the TObject scan, the vftable
scan, pass A and version inference to completion — contradicting the
claim (and the code's own "cannot continue" log message at `windows.py`
line 124). -/
theorem c4_missing_unit_table_not_fatal :
    exInput.tablePos = none ∧
    Event.parseInitTable ∉ (analyse exModel 8 8 exInput).trace ∧
    (analyse exModel 8 8 exInput).outcome = Outcome.completed ∧
    Event.scanVftables 1 ∈ (analyse exModel 8 8 exInput).trace ∧
    Event.construct 1 4096 4096 ObjKind.vftable true ∈ (analyse exModel 8 8 exInput).trace ∧
    Event.versionInfer ∈ (analyse exModel 8 8 exInput).trace := by
  decide

/-- C5: the selection check at `windows.py` line 138 is
`s.contains_va(s.load_address)` — the declared entry point is never
consulted.  On a concrete two-section input whose entry point lies only
in the second section, `analyse` selects the first section (which does
not contain the entry point) and completes; and with an entry point
inside no code section it still completes instead of aborting. -/
theorem c5_entry_point_not_used :
    ((selectCodeSection exInput2).map (fun s => s.load_address) = some 4096) ∧
    exSmall.contains_va exInput2.entry_point = false ∧
    (exSection 8192).contains_va exInput2.entry_point = true ∧
    (analyse exModel 8 8 exInput2).outcome = Outcome.completed ∧
    (∀ s ∈ exInputEPNone.codeSections, s.contains_va exInputEPNone.entry_point = false) ∧
    (analyse exModel 8 8 exInputEPNone).outcome = Outcome.completed := by
  decide

end Pythia
